import Mathlib

/-!
# HarperDB Go API (`api.go`): command pipeline and job-id extraction

A shallow embedding of `package harper` (`api.go`).

* Go `string` values are byte sequences (`GoString`); a Go string literal
  `"abc"` is written `utf8 "abc"`.
* A Go run-time panic is an `Except.error` carrying a `Panic`.
* `log.Println` / `fmt.Println` output is not modelled; the dereferences made
  while building their arguments are.
-/

namespace harper

/-! ## Go strings -/

/-- A Go `string`: an immutable sequence of bytes. -/
abbrev GoString := List UInt8

/-- A Go `[]byte`. -/
abbrev Bytes := List UInt8

/-- The bytes of a Go string literal (Go source text is UTF-8). -/
def utf8 (s : String) : GoString := s.data.flatMap String.utf8EncodeChar

/-- Run-time panics raised by the modelled code. -/
inductive Panic where
  /-- "invalid memory address or nil pointer dereference". -/
  | nilDereference
  /-- "slice bounds out of range [lo:len]". -/
  | sliceBounds (lo : Int) (len : Int)
  deriving DecidableEq, Repr

deriving instance DecidableEq for Except

/-- Byte-wise test `strings.HasPrefix(s, p)`. -/
def strings.HasPrefix : GoString → GoString → Bool
  | _, [] => true
  | [], _ :: _ => false
  | a :: s, b :: p => a == b && strings.HasPrefix s p

/-- Search for `substr` in `s`, where `s` is the tail of the original string
that starts at byte offset `k`. -/
def strings.indexFrom (substr : GoString) : GoString → Nat → Int
  | [], k => if strings.HasPrefix [] substr then (k : Int) else -1
  | a :: s, k =>
    if strings.HasPrefix (a :: s) substr then (k : Int)
    else strings.indexFrom substr s (k + 1)

/-- The standard library `strings.Index(s, substr)`: the byte index of the
first instance of `substr` in `s`, or `-1` if `substr` is not present. -/
def strings.Index (s substr : GoString) : Int := strings.indexFrom substr s 0

/-- The slice expression `s[lo:]` on a string: panics unless `0 ≤ lo ≤ len(s)`. -/
def sliceFrom (s : GoString) (lo : Int) : Except Panic GoString :=
  if 0 ≤ lo ∧ lo ≤ (s.length : Int) then .ok (s.drop lo.toNat)
  else .error (.sliceBounds lo s.length)

/-! ## Bulk response and job id -/

/-- Response for bulk operations (contains job id). -/
structure bulkResponse where
  Message : GoString
  deriving DecidableEq, Repr

/-- The method `func (br bulkResponse) getJobId() string`. -/
def bulkResponse.getJobId (br : bulkResponse) : Except Panic GoString :=
  let i := strings.Index br.Message (utf8 "id")
  if i = -1 then .ok (utf8 "not found")
  else sliceFrom br.Message (i + 3)

/-! ## Errors, caller values and wire documents -/

/-- A non-nil Go `error`, identified by its message. -/
structure GoError where
  msg : GoString
  deriving DecidableEq, Repr

/-- The standard library `errors.New(text)`. -/
def errors.New (text : GoString) : GoError := ⟨text⟩

/-- An `interface{}` value as `json.Marshal` sees it. -/
inductive Any where
  /-- The nil interface; encodes as `null`. -/
  | nil
  /-- A Go string. -/
  | str (s : GoString)
  /-- Any other supported value, given by the JSON text it encodes to. -/
  | encodes (text : Bytes)
  /-- A value the encoder rejects (channel, function, NaN, cycle ...). -/
  | unsupported (err : GoError)
  deriving DecidableEq, Repr

/-- The value of one member of a JSON object on the wire. -/
inductive Value where
  | str (s : GoString)
  | strs (xs : List GoString)
  | bool (b : Bool)
  | raw (text : Bytes)
  deriving DecidableEq, Repr

/-- A JSON document on the wire: an object given by its members in order, or
some other value. -/
inductive Doc where
  | object (members : List (GoString × Value))
  | value (v : Value)
  deriving DecidableEq, Repr

/-- The keys of the members of a wire document. -/
def Doc.keys : Doc → List GoString
  | .object members => members.map Prod.fst
  | .value _ => []

/-- The members of a wire document. -/
def Doc.members : Doc → List (GoString × Value)
  | .object members => members
  | .value _ => []

/-! ## Command envelopes and results -/

/-- Request body for admin operations (`type AdminReq struct`). -/
structure AdminReq where
  Operation : GoString
  Schema : GoString
  Table : GoString
  Attribute : GoString
  HashAttribute : GoString
  Role : GoString
  UserName : GoString
  Password : GoString
  Active : Option Bool
  deriving DecidableEq, Repr

/-- Result object for data updates (`type UpdtResult struct`). -/
structure UpdtResult where
  Message : GoString
  InsertedHashes : List GoString
  UpdatedHashes : List GoString
  DeletedHashes : List GoString
  SkippedHashes : List GoString
  deriving DecidableEq, Repr

/-- The zero value of `UpdtResult` (`var result UpdtResult`). -/
def UpdtResult.zero : UpdtResult := ⟨[], [], [], [], []⟩

/-- Request body for data updates (`type UpdtReq struct`). -/
structure UpdtReq where
  Operation : GoString
  Schema : GoString
  Table : GoString
  Records : Any
  HashValues : List GoString
  Sql : GoString
  deriving DecidableEq, Repr

/-- Request body for reads (`type ReadReq struct`). -/
structure ReadReq where
  Operation : GoString
  Schema : GoString
  Table : GoString
  HashValues : List GoString
  GetAttributes : List GoString
  SearchAttribute : List GoString
  SearchValue : List GoString
  Sql : GoString
  deriving DecidableEq, Repr

/-- The values handed to `Harper.Run` as `payload interface{}`. -/
inductive Payload where
  | admin (req : AdminReq)
  | updt (req : UpdtReq)
  | read (req : ReadReq)
  /-- A `map[string]interface{}`, given by its entries. -/
  | map (entries : List (GoString × Any))
  | other (v : Any)
  deriving DecidableEq, Repr

/-! ## `encoding/json`, encoding side -/

/-- A struct field of type `string` tagged `json:"key,omitempty"`. -/
def json.omitemptyString (key : String) (s : GoString) : List (GoString × Value) :=
  if s.length = 0 then [] else [(utf8 key, .str s)]

/-- A struct field of type `[]string` tagged `json:"key,omitempty"`. -/
def json.omitemptyStrings (key : String) (xs : List GoString) : List (GoString × Value) :=
  if xs.length = 0 then [] else [(utf8 key, .strs xs)]

/-- A struct field of type `*bool` tagged `json:"key,omitempty"`. -/
def json.omitemptyBoolPtr (key : String) (p : Option Bool) : List (GoString × Value) :=
  match p with
  | none => []
  | some b => [(utf8 key, .bool b)]

/-- Encoding of an `interface{}` value. -/
def json.marshalAny : Any → Except GoError Value
  | .nil => .ok (.raw (utf8 "null"))
  | .str s => .ok (.str s)
  | .encodes text => .ok (.raw text)
  | .unsupported err => .error err

/-- A struct field of type `interface{}` tagged `json:"key,omitempty"`: omitted
when the interface is nil. -/
def json.omitemptyAny (key : String) (v : Any) : Except GoError (List (GoString × Value)) :=
  match v with
  | .nil => .ok []
  | v => (json.marshalAny v).map (fun j => [(utf8 key, j)])

/-- Byte-wise `a < b` on Go strings. -/
def strings.less : GoString → GoString → Bool
  | [], [] => false
  | [], _ :: _ => true
  | _ :: _, [] => false
  | a :: s, b :: t => a < b || (a == b && strings.less s t)

/-- Insert a member into a list of members sorted by key. -/
def json.insertSorted (kv : GoString × Value) : List (GoString × Value) → List (GoString × Value)
  | [] => [kv]
  | x :: xs => if strings.less x.1 kv.1 then x :: json.insertSorted kv xs else kv :: x :: xs

/-- Encoding of the entries of a map: each value is encoded and the members are
written sorted by key. -/
def json.marshalMap : List (GoString × Any) → Except GoError (List (GoString × Value))
  | [] => .ok []
  | (k, v) :: rest =>
    match json.marshalAny v, json.marshalMap rest with
    | .ok j, .ok members => .ok (json.insertSorted (k, j) members)
    | .error err, _ => .error err
    | .ok _, .error err => .error err

/-- The standard library `json.Marshal` at the values `Harper.Run` receives;
struct members follow the field tags of the struct declarations. -/
def json.Marshal : Payload → Except GoError Doc
  | .admin req => .ok (.object (
      [(utf8 "operation", .str req.Operation)]
      ++ json.omitemptyString "schema" req.Schema
      ++ json.omitemptyString "table" req.Table
      ++ json.omitemptyString "attribute" req.Attribute
      ++ json.omitemptyString "hash_attribute" req.HashAttribute
      ++ json.omitemptyString "role" req.Role
      ++ json.omitemptyString "username" req.UserName
      ++ json.omitemptyString "password" req.Password
      ++ json.omitemptyBoolPtr "active" req.Active))
  | .updt req =>
    match json.omitemptyAny "records" req.Records with
    | .error err => .error err
    | .ok records => .ok (.object (
      [(utf8 "operation", .str req.Operation)]
      ++ json.omitemptyString "schema" req.Schema
      ++ json.omitemptyString "table" req.Table
      ++ records
      ++ json.omitemptyStrings "hash_values" req.HashValues
      ++ json.omitemptyString "sql" req.Sql))
  | .read req => .ok (.object (
      [(utf8 "operation", .str req.Operation)]
      ++ json.omitemptyString "schema" req.Schema
      ++ json.omitemptyString "table" req.Table
      ++ json.omitemptyStrings "hash_values" req.HashValues
      ++ json.omitemptyStrings "get_attributes" req.GetAttributes
      ++ json.omitemptyStrings "search_attribute" req.SearchAttribute
      ++ json.omitemptyStrings "search_value" req.SearchValue
      ++ json.omitemptyString "sql" req.Sql))
  | .map entries => (json.marshalMap entries).map Doc.object
  | .other v => (json.marshalAny v).map Doc.value

/-- The standard library `json.Unmarshal(data, &target)` at target type `α`:
from the data and the target's value before the call, the target's value after
the call and the error returned. -/
abbrev Unmarshaler (α : Type) := Bytes → α → α × Option GoError

/-! ## `net/http` -/

/-- An outgoing `*http.Request`; the body is the JSON document that
`jsonContent` holds. -/
structure Request where
  Method : GoString
  URL : GoString
  Header : List (GoString × GoString)
  Body : Doc
  deriving DecidableEq, Repr

/-- The method `req.Header.Add(key, value)`. -/
def Request.HeaderAdd (req : Request) (key value : GoString) : Request :=
  { req with Header := req.Header ++ [(key, value)] }

/-- A `*http.Response`; `Body` is what `ioutil.ReadAll(resp.Body)` yields. -/
structure Response where
  StatusCode : Int
  Status : GoString
  Body : Bytes × Option GoError
  deriving DecidableEq, Repr

/-- The constant `http.StatusOK`. -/
def http.StatusOK : Int := 200

/-- An `*http.Client`: `Do` yields `(resp, err)`, either of which may be nil. -/
structure Client where
  Do : Request → Option Response × Option GoError

/-- Package-level state and the part of `net/url` that `http.NewRequest` consults. -/
structure Env where
  /-- The package variable `URL`. -/
  URL : GoString
  /-- Whether the standard library parses the given URL. -/
  urlParses : GoString → Bool

/-- The standard library `http.NewRequest(method, url, body)`, for a valid method:
`(req, nil)`, or `(nil, err)` when the URL does not parse. -/
def http.NewRequest (E : Env) (method url : GoString) (body : Doc) :
    Option Request × Option GoError :=
  if E.urlParses url then (some ⟨method, url, [], body⟩, none)
  else (none, some (errors.New (utf8 "parse " ++ url)))

/-! ## The session and `Harper.Run` -/

/-- The type `Harper`, used to execute API calls via `Run`. -/
structure Harper where
  Client : Option Client
  AuthToken : GoString
  Schema : GoString
  Debug : Bool

/-- What an execution has done so far. -/
structure World where
  /-- The payloads `Harper.Run` has been called with, oldest first. -/
  calls : List Payload
  /-- The requests handed to `Client.Do`, oldest first. -/
  sent : List Request
  /-- The number of response bodies closed. -/
  closed : Nat
  deriving DecidableEq, Repr

/-- The initial world. -/
def World.init : World := ⟨[], [], 0⟩

/-- Lines 51 to 55 of `Harper.Run`: build the request and add its headers. The
error of `http.NewRequest` is dropped, so a nil `req` is dereferenced by
`req.Header.Add`. -/
def Harper.newRequest (E : Env) (harper : Harper) (jsonContent : Doc) : Except Panic Request :=
  match (http.NewRequest E (utf8 "POST") E.URL jsonContent).1 with
  | none => .error .nilDereference
  | some req =>
    let req := req.HeaderAdd (utf8 "Content-Type") (utf8 "application/json")
    if harper.AuthToken ≠ utf8 "" then
      .ok (req.HeaderAdd (utf8 "Authorization") (utf8 "Bearer " ++ harper.AuthToken))
    else .ok req

/-- The deferred function of `Harper.Run`, run when `Run` returns or panics:
`if doErr == nil { resp.Body.Close() }`. -/
def Harper.runDeferred {R : Type} (resp : Option Response) (doErr : Option GoError)
    (out : Except Panic R × World) : Except Panic R × World :=
  match doErr with
  | some _ => out
  | none =>
    match resp with
    | none => (.error .nilDereference, out.2)
    | some _ => (out.1, { out.2 with closed := out.2.closed + 1 })

/-- The method `func (harper *Harper) Run(payload interface{}) ([]byte, error)`.
A nil `[]byte` is `none`. The echo made when `harper.Debug` is set goes to the
standard output only. -/
def Harper.Run (E : Env) (harper : Harper) (payload : Payload) (w : World) :
    Except Panic (Option Bytes × Option GoError) × World :=
  let w := { w with calls := w.calls ++ [payload] }
  match json.Marshal payload with
  | .error err => (.ok (none, some err), w)
  | .ok jsonContent =>
    match harper.newRequest E jsonContent with
    | .error p => (.error p, w)
    | .ok req =>
      match harper.Client with
      | none => (.error .nilDereference, w)
      | some client =>
        let (resp, doErr) := client.Do req
        let w := { w with sent := w.sent ++ [req] }
        match resp with
        | none => Harper.runDeferred resp doErr (.error .nilDereference, w)
        | some r =>
          if r.StatusCode ≠ http.StatusOK ∨ doErr ≠ none then
            Harper.runDeferred resp doErr (.ok (none, doErr), w)
          else
            let (result, err) := r.Body
            Harper.runDeferred resp doErr (.ok (some result, err), w)

/-- The data of a `[]byte` that may be nil. -/
def bytesOf (b : Option Bytes) : Bytes := b.getD []

/-! ## Convenience operations -/

/-- The method `func (req *AdminReq) Process(harper *Harper) ([]byte, error)`. -/
def AdminReq.Process (E : Env) (req : AdminReq) (harper : Harper) (w : World) :
    Except Panic (Option Bytes × Option GoError) × World :=
  harper.Run E (.admin req) w

/-- Lines 122 to 124 of `UpdtReq.Process`: an empty `req.Schema` is loaded from
the session. -/
def UpdtReq.loadSchema (req : UpdtReq) (harper : Harper) : UpdtReq :=
  if req.Schema = utf8 "" then { req with Schema := harper.Schema } else req

/-- The method `func (req *UpdtReq) Process(harper *Harper) (*UpdtResult, error)`.
Yields what the call returns (or its panic), the request `*req` as it stands
afterwards, and the world. -/
def UpdtReq.Process (E : Env) (Unmarshal : Unmarshaler UpdtResult) (req : UpdtReq)
    (harper : Harper) (w : World) :
    Except Panic (UpdtResult × Option GoError) × UpdtReq × World :=
  let req := req.loadSchema harper
  match harper.Run E (.updt req) w with
  | (.error p, w) => (.error p, req, w)
  | (.ok (response, err), w) =>
    let result := UpdtResult.zero
    let result := (Unmarshal (bytesOf response) result).1
    let err :=
      if result.SkippedHashes.length > 0 ∧ err = none then
        some (errors.New (utf8 "skipped_hashes"))
      else err
    (.ok (result, err), req, w)

/-- Lines 205 to 207 of `ReadReq.Process`: an empty `req.Schema` is loaded from
the session. -/
def ReadReq.loadSchema (req : ReadReq) (harper : Harper) : ReadReq :=
  if req.Schema = utf8 "" then { req with Schema := harper.Schema } else req

/-- The method `func (req *ReadReq) Process(harper *Harper, result interface{}) error`.
Yields the error the call returns (or its panic), the request `*req` and the
decode target as they stand afterwards, and the world. -/
def ReadReq.Process {α : Type} (E : Env) (Unmarshal : Unmarshaler α) (req : ReadReq)
    (harper : Harper) (result : α) (w : World) :
    Except Panic (Option GoError) × ReadReq × α × World :=
  let req := req.loadSchema harper
  match harper.Run E (.read req) w with
  | (.error p, w) => (.error p, req, result, w)
  | (.ok (response, err), w) =>
    match err with
    | some e => (.ok (some e), req, result, w)
    | none =>
      let (result, err) := Unmarshal (bytesOf response) result
      (.ok err, req, result, w)

/-- The function `Select`: select records using sql. Yields the error the call
returns (or its panic), the decode target afterwards, and the world. -/
def Select {α : Type} (E : Env) (Unmarshal : Unmarshaler α) (harper : Harper)
    (sql : GoString) (result : α) (w : World) : Except Panic (Option GoError) × α × World :=
  let request : ReadReq :=
    { Operation := utf8 "sql", Schema := utf8 "", Table := utf8 "", HashValues := [],
      GetAttributes := [], SearchAttribute := [], SearchValue := [], Sql := sql }
  match request.Process E Unmarshal harper result w with
  | (out, _, result, w) => (out, result, w)

/-- The map literal that `CsvDataLoad` builds as its payload. -/
def CsvDataLoad.payload (harper : Harper) (table action csvData : GoString) :
    List (GoString × Any) :=
  [ (utf8 "schema", .str harper.Schema),
    (utf8 "operation", .str (utf8 "csv_data_load")),
    (utf8 "action", .str action),
    (utf8 "table", .str table),
    (utf8 "data", .str csvData) ]

/-- Lines 253 to 257 of `CsvDataLoad`: the lines of all records, appended in order. -/
def CsvDataLoad.csvData (CreateCSVLine : List GoString → GoString)
    (data : List (List GoString)) : GoString :=
  data.foldl (fun acc recValues => acc ++ CreateCSVLine recValues) (utf8 "")

/-- The function `CsvDataLoad`: returns the job id. `CreateCSVLine` is defined in
another file of the package and is a parameter here. -/
def CsvDataLoad (E : Env) (CreateCSVLine : List GoString → GoString)
    (Unmarshal : Unmarshaler bulkResponse) (harper : Harper) (table action : GoString)
    (data : List (List GoString)) (w : World) : Except Panic (GoString × Option GoError) × World :=
  let csvData := CsvDataLoad.csvData CreateCSVLine data
  let payload := CsvDataLoad.payload harper table action csvData
  match harper.Run E (.map payload) w with
  | (.error p, w) => (.error p, w)
  | (.ok (response, err), w) =>
    match err with
    | some e => (.ok (utf8 "", some e), w)
    | none =>
      let result : bulkResponse := ⟨utf8 ""⟩
      let result := (Unmarshal (bytesOf response) result).1
      match result.getJobId with
      | .error p => (.error p, w)
      | .ok id => (.ok (id, none), w)

/-! ## Sample sessions and collaborators -/

/-- The package as it starts: the default `URL`, which parses. -/
def sampleEnv : Env := ⟨utf8 "http://localhost:9925", fun _ => true⟩

/-- A client whose `Do` yields the given pair for every request. -/
def constClient (resp : Option Response) (err : Option GoError) : Client :=
  ⟨fun _ => (resp, err)⟩

/-- A session with a client, a token and the given default schema. -/
def sampleHarper (client : Client) (schema : GoString) : Harper :=
  ⟨some client, utf8 "token", schema, false⟩

/-- An update of table `dog` that names no schema. -/
def sampleUpdate : UpdtReq :=
  ⟨utf8 "update", utf8 "", utf8 "dog", .encodes (utf8 "[\x7b\"id\":\"7\"\x7d]"), [], utf8 ""⟩

/-- A search of table `dog` in schema `prod`. -/
def sampleSearch : ReadReq :=
  ⟨utf8 "search_by_hash", utf8 "prod", utf8 "dog", [utf8 "7"], [utf8 "*"], [], [], utf8 ""⟩

/-- The body of a mutation response that reports one skipped record. -/
def skippedBody : Bytes := utf8 "\x7b\"message\":\"\",\"skipped_hashes\":[\"7\"]\x7d"

/-- A decoder for `UpdtResult` that knows `skippedBody` and rejects all other data. -/
def sampleUnmarshalUpdt : Unmarshaler UpdtResult := fun data target =>
  if data = skippedBody then ({ target with SkippedHashes := [utf8 "7"] }, none)
  else (target, some (errors.New (utf8 "invalid character")))

/-- A decoder for a target of type `List GoString` that rejects all data. -/
def sampleUnmarshalRows : Unmarshaler (List GoString) := fun _ target =>
  (target, some (errors.New (utf8 "invalid character")))

/-- A client that answers every request with status 200 and the given body. -/
def okClient (body : Bytes) : Client :=
  constClient (some ⟨200, utf8 "200 OK", (body, none)⟩) none

/-! ## Facts about `strings.Index` -/

theorem strings.HasPrefix_iff (s p : GoString) :
    strings.HasPrefix s p = true ↔ ∃ t, s = p ++ t := by
  induction p generalizing s with
  | nil => cases s <;> simp [strings.HasPrefix]
  | cons b p ih =>
    cases s with
    | nil => simp [strings.HasPrefix]
    | cons a s =>
      simp only [strings.HasPrefix, Bool.and_eq_true, beq_iff_eq, ih, List.cons_append,
        List.cons.injEq]
      constructor
      · rintro ⟨rfl, t, rfl⟩
        exact ⟨t, rfl, rfl⟩
      · rintro ⟨t, rfl, rfl⟩
        exact ⟨rfl, t, rfl⟩

/-- The result of the search: either `-1` and no instance, or the offset of the
first instance. -/
theorem strings.indexFrom_spec (substr s : GoString) (k : Nat) :
    (strings.indexFrom substr s k = -1 ∧ ∀ pre post, s ≠ pre ++ substr ++ post) ∨
    (∃ pre post, s = pre ++ substr ++ post ∧
      strings.indexFrom substr s k = ((k + pre.length : Nat) : Int) ∧
      ∀ pre' post', s = pre' ++ substr ++ post' → pre.length ≤ pre'.length) := by
  induction s generalizing k with
  | nil =>
    by_cases h : strings.HasPrefix [] substr = true
    · right
      obtain ⟨t, ht⟩ := (strings.HasPrefix_iff _ _).1 h
      refine ⟨[], t, by simpa using ht, by simp [strings.indexFrom, h], by simp⟩
    · left
      refine ⟨by simp [strings.indexFrom, h], ?_⟩
      intro pre post hEq
      apply h
      rw [strings.HasPrefix_iff]
      have : pre = [] ∧ substr = [] ∧ post = [] := by simpa [List.append_eq_nil, and_assoc] using hEq.symm
      exact ⟨[], by simp [this.2.1]⟩
  | cons a s ih =>
    by_cases h : strings.HasPrefix (a :: s) substr = true
    · right
      obtain ⟨t, ht⟩ := (strings.HasPrefix_iff _ _).1 h
      refine ⟨[], t, by simpa using ht, by simp [strings.indexFrom, h], by simp⟩
    · have hno : ∀ post, a :: s ≠ substr ++ post := by
        intro post hEq
        exact h ((strings.HasPrefix_iff _ _).2 ⟨post, hEq⟩)
      rcases ih (k + 1) with ⟨hidx, habs⟩ | ⟨pre, post, hs, hidx, hmin⟩
      · left
        refine ⟨by simp [strings.indexFrom, h, hidx], ?_⟩
        intro pre post hEq
        cases pre with
        | nil => exact hno post (by simpa using hEq)
        | cons b pre =>
          simp only [List.cons_append, List.cons.injEq] at hEq
          exact habs pre post hEq.2
      · right
        refine ⟨a :: pre, post, by simp [hs], ?_, ?_⟩
        · simp [strings.indexFrom, h, hidx]
          omega
        · intro pre' post' hEq
          cases pre' with
          | nil => exact absurd (by simpa using hEq) (hno post')
          | cons b pre' =>
            simp only [List.cons_append, List.cons.injEq] at hEq
            have := hmin pre' post' hEq.2
            simp only [List.length_cons]
            omega

/-- The search `strings.Index` yields `-1` when the string holds no instance of `substr`. -/
theorem strings.Index_absent (s substr : GoString)
    (h : ∀ pre post, s ≠ pre ++ substr ++ post) : strings.Index s substr = -1 := by
  rcases strings.indexFrom_spec substr s 0 with ⟨hidx, _⟩ | ⟨pre, post, hs, _, _⟩
  · exact hidx
  · exact absurd hs (h pre post)

/-- The search `strings.Index` yields the offset of the first instance of `substr`. -/
theorem strings.Index_first (substr pre post : GoString)
    (hfirst : ∀ pre' post', pre ++ substr ++ post = pre' ++ substr ++ post' →
      pre.length ≤ pre'.length) :
    strings.Index (pre ++ substr ++ post) substr = (pre.length : Int) := by
  rcases strings.indexFrom_spec substr (pre ++ substr ++ post) 0 with
    ⟨_, habs⟩ | ⟨pre0, post0, hs, hidx, hmin⟩
  · exact absurd rfl (habs pre post)
  · have h1 := hfirst pre0 post0 hs
    have h2 := hmin pre post rfl
    have : pre0.length = pre.length := by omega
    rw [strings.Index, hidx]
    simp [this]

/-- The search `strings.Index` yields `-1` only when the string holds no instance of `substr`. -/
theorem strings.absent_of_Index (s substr : GoString) (h : strings.Index s substr = -1) :
    ∀ pre post, s ≠ pre ++ substr ++ post := by
  rcases strings.indexFrom_spec substr s 0 with ⟨_, habs⟩ | ⟨pre, post, _, hidx, _⟩
  · exact habs
  · rw [strings.Index, hidx] at h
    omega

/-- No instance of `substr` starts before the offset `strings.Index` yields. -/
theorem strings.Index_le (s substr : GoString) (n : Nat)
    (h : strings.Index s substr = (n : Int)) :
    ∀ pre post, s = pre ++ substr ++ post → n ≤ pre.length := by
  rcases strings.indexFrom_spec substr s 0 with ⟨hidx, _⟩ | ⟨pre0, post0, _, hidx, hmin⟩
  · rw [strings.Index, hidx] at h
    omega
  · intro pre post hs
    have := hmin pre post hs
    rw [strings.Index, hidx] at h
    omega

/-! ## Job id extraction -/

/-- C7: for every status message that holds no instance of the marker "id"
(the empty message included), `getJobId` returns the sentinel "not found" and
does not panic. -/
theorem getJobId_marker_absent (msg : GoString)
    (h : ∀ pre post, msg ≠ pre ++ utf8 "id" ++ post) :
    bulkResponse.getJobId ⟨msg⟩ = .ok (utf8 "not found") := by
  simp [bulkResponse.getJobId, strings.Index_absent msg (utf8 "id") h]

/-- C7 at the empty message and at a message without the marker. -/
theorem getJobId_marker_absent_witness :
    bulkResponse.getJobId ⟨utf8 ""⟩ = .ok (utf8 "not found") ∧
    bulkResponse.getJobId ⟨utf8 "job was rejected"⟩ = .ok (utf8 "not found") :=
  ⟨getJobId_marker_absent (utf8 "") (strings.absent_of_Index _ _ (by decide)),
   getJobId_marker_absent (utf8 "job was rejected") (strings.absent_of_Index _ _ (by decide))⟩

/-- C6 as stated fails: for the message "...id of abc-123 has been created"
`getJobId` returns "of abc-123 has been created", not "abc-123". -/
theorem getJobId_example_refuted :
    bulkResponse.getJobId ⟨utf8 "...id of abc-123 has been created"⟩
      = .ok (utf8 "of abc-123 has been created") ∧
    bulkResponse.getJobId ⟨utf8 "...id of abc-123 has been created"⟩
      ≠ .ok (utf8 "abc-123") := by
  decide

/-- C6 amended: when the first instance of the marker "id" starts at byte offset
`pre.length` and at least one byte follows the marker, `getJobId` returns the
message from byte offset `pre.length + 3` (three bytes past the start of the
marker) to its end; for "...id of abc-123 has been created" that is
"of abc-123 has been created". -/
theorem getJobId_first_marker (pre post : GoString)
    (hfirst : ∀ pre' post', pre ++ utf8 "id" ++ post = pre' ++ utf8 "id" ++ post' →
      pre.length ≤ pre'.length)
    (hpost : 1 ≤ post.length) :
    bulkResponse.getJobId ⟨pre ++ utf8 "id" ++ post⟩
      = .ok ((pre ++ utf8 "id" ++ post).drop (pre.length + 3)) ∧
    (pre ++ utf8 "id" ++ post).drop (pre.length + 3) = post.drop 1 ∧
    bulkResponse.getJobId ⟨utf8 "...id of abc-123 has been created"⟩
      = .ok (utf8 "of abc-123 has been created") := by
  have hid : (utf8 "id").length = 2 := by decide
  refine ⟨?_, ?_, by decide⟩
  · have hidx := strings.Index_first (utf8 "id") pre post hfirst
    simp only [bulkResponse.getJobId, hidx, sliceFrom]
    have h1 : ¬ ((pre.length : Int) = -1) := by omega
    have h2 : (0 : Int) ≤ (pre.length : Int) + 3 ∧
        (pre.length : Int) + 3 ≤ ((pre ++ utf8 "id" ++ post).length : Int) := by
      simp only [List.length_append, hid]
      omega
    have h3 : ((pre.length : Int) + 3).toNat = pre.length + 3 := by omega
    simp only [h1, h2, h3, if_false, if_true, and_self]
  · have : pre.length + 3 = (pre ++ utf8 "id").length + 1 := by
      simp only [List.length_append, hid]
    rw [this, ← List.drop_drop, List.drop_left]

/-- C6 amended, at the message "Starting job with id 2fe25039". -/
theorem getJobId_first_marker_witness :
    bulkResponse.getJobId ⟨utf8 "Starting job with " ++ utf8 "id" ++ utf8 " 2fe25039"⟩
      = .ok (utf8 "2fe25039") :=
  (getJobId_first_marker (utf8 "Starting job with ") (utf8 " 2fe25039")
    (strings.Index_le _ (utf8 "id") 18 (by decide)) (by decide)).1

/-- C10 fails on the code: when fewer than one byte follows the first "id", the
slice `Message[i+3:]` is out of range and `getJobId` panics. -/
theorem getJobId_panics_at_end :
    bulkResponse.getJobId ⟨utf8 "id"⟩ = .error (.sliceBounds 3 2) ∧
    bulkResponse.getJobId ⟨utf8 "table is valid"⟩ = .error (.sliceBounds 15 14) ∧
    bulkResponse.getJobId ⟨utf8 "invalid"⟩ = .error (.sliceBounds 8 7) := by
  decide

/-! ## The transport executor -/

/-- C1 fails on the code: when the send succeeds and the response carries a
status outside 200..299, `Harper.Run` returns no bytes and a nil error. -/
theorem Run_error_status_nil_error (E : Env) (harper : Harper) (payload : Payload)
    (w : World) (jsonContent : Doc) (req : Request) (client : Client) (r : Response)
    (hm : json.Marshal payload = .ok jsonContent)
    (hreq : harper.newRequest E jsonContent = .ok req)
    (hc : harper.Client = some client)
    (hdo : client.Do req = (some r, none))
    (hstatus : r.StatusCode < 200 ∨ 300 ≤ r.StatusCode) :
    (harper.Run E payload w).1 = .ok (none, none) := by
  have hne : r.StatusCode ≠ 200 := by omega
  simp [Harper.Run, hm, hreq, hc, hdo, Harper.runDeferred, http.StatusOK, hne]

/-- C1 at a response with status 500: `Run` returns `(nil, nil)`. -/
theorem Run_error_status_nil_error_witness :
    ((sampleHarper (constClient (some ⟨500, utf8 "500 Internal Server Error",
        (utf8 "oops", none)⟩) none) (utf8 "dev")).Run sampleEnv (.updt sampleUpdate)
        World.init).1 = .ok (none, none) :=
  Run_error_status_nil_error sampleEnv _ (.updt sampleUpdate) World.init _ _ _ _
    rfl rfl rfl rfl (by decide)

/-- C2 fails on the code: when `Do` yields no response and an error,
`Harper.Run` dereferences the nil response and panics; nothing is returned. -/
theorem Run_transport_failure_panics (E : Env) (harper : Harper) (payload : Payload)
    (w : World) (jsonContent : Doc) (req : Request) (client : Client) (err : GoError)
    (hm : json.Marshal payload = .ok jsonContent)
    (hreq : harper.newRequest E jsonContent = .ok req)
    (hc : harper.Client = some client)
    (hdo : client.Do req = (none, some err)) :
    (harper.Run E payload w).1 = .error .nilDereference ∧
    (harper.Run E payload w).2.sent = w.sent ++ [req] := by
  simp [Harper.Run, hm, hreq, hc, hdo, Harper.runDeferred]

/-- C2 at a client that fails with "connection refused". -/
theorem Run_transport_failure_panics_witness :
    ((sampleHarper (constClient none (some (errors.New (utf8 "connection refused"))))
        (utf8 "dev")).Run sampleEnv (.read sampleSearch) World.init).1
      = .error .nilDereference :=
  (Run_transport_failure_panics sampleEnv
    (sampleHarper (constClient none (some (errors.New (utf8 "connection refused")))) (utf8 "dev"))
    (.read sampleSearch) World.init _ _ _ _ rfl rfl rfl rfl).1

/-- The deferred function leaves the record of calls as it was. -/
theorem runDeferred_calls {R : Type} (resp : Option Response) (doErr : Option GoError)
    (out : Except Panic R × World) :
    (Harper.runDeferred resp doErr out).2.calls = out.2.calls := by
  unfold Harper.runDeferred
  cases doErr <;> cases resp <;> rfl

/-- The call `Harper.Run` records the payload it was called with, whatever happens next. -/
theorem Run_calls (E : Env) (harper : Harper) (payload : Payload) (w : World) :
    (harper.Run E payload w).2.calls = w.calls ++ [payload] := by
  unfold Harper.Run
  simp only []
  repeat' split
  all_goals simp only [runDeferred_calls]

/-! ## Mutation and read operations -/

/-- C3: when `Harper.Run` returns bytes with no error and the `UpdtResult`
decoded from them has a non-empty `SkippedHashes`, `UpdtReq.Process` returns the
decoded result together with the error "skipped_hashes". -/
theorem UpdtReq_Process_skipped_hashes (E : Env) (Unmarshal : Unmarshaler UpdtResult)
    (req : UpdtReq) (harper : Harper) (w w' : World) (response : Option Bytes)
    (hrun : harper.Run E (.updt (req.loadSchema harper)) w = (.ok (response, none), w'))
    (hskip : (Unmarshal (bytesOf response) UpdtResult.zero).1.SkippedHashes ≠ []) :
    (req.Process E Unmarshal harper w).1
      = .ok ((Unmarshal (bytesOf response) UpdtResult.zero).1,
          some (errors.New (utf8 "skipped_hashes"))) := by
  have hlen : 0 < (Unmarshal (bytesOf response) UpdtResult.zero).1.SkippedHashes.length :=
    List.length_pos.2 hskip
  simp [UpdtReq.Process, hrun, hlen]

/-- C3 at a response with status 200 whose body reports one skipped record. -/
theorem UpdtReq_Process_skipped_hashes_witness :
    (sampleUpdate.Process sampleEnv sampleUnmarshalUpdt
        (sampleHarper (okClient skippedBody) (utf8 "dev")) World.init).1
      = .ok (⟨[], [], [], [], [utf8 "7"]⟩, some (errors.New (utf8 "skipped_hashes"))) :=
  UpdtReq_Process_skipped_hashes sampleEnv sampleUnmarshalUpdt sampleUpdate
    (sampleHarper (okClient skippedBody) (utf8 "dev")) World.init _ (some skippedBody)
    rfl (by decide)

/-- The schema `loadSchema` leaves in a mutation request. -/
theorem UpdtReq_loadSchema_eq (req : UpdtReq) (harper : Harper) :
    req.loadSchema harper = { req with
      Schema := if req.Schema = utf8 "" then harper.Schema else req.Schema } := by
  unfold UpdtReq.loadSchema
  split <;> simp_all

/-- The schema `loadSchema` leaves in a read request. -/
theorem ReadReq_loadSchema_eq (req : ReadReq) (harper : Harper) :
    req.loadSchema harper = { req with
      Schema := if req.Schema = utf8 "" then harper.Schema else req.Schema } := by
  unfold ReadReq.loadSchema
  split <;> simp_all

/-- The method `UpdtReq.Process` calls `Harper.Run` once, with the request after `loadSchema`. -/
theorem UpdtReq_Process_calls (E : Env) (U : Unmarshaler UpdtResult) (req : UpdtReq)
    (harper : Harper) (w : World) :
    (req.Process E U harper w).2.2.calls = w.calls ++ [.updt (req.loadSchema harper)] := by
  rw [← Run_calls E harper (.updt (req.loadSchema harper)) w]
  unfold UpdtReq.Process
  simp only []
  split <;> simp_all

/-- After `UpdtReq.Process` the caller's request is the request after `loadSchema`. -/
theorem UpdtReq_Process_req (E : Env) (U : Unmarshaler UpdtResult) (req : UpdtReq)
    (harper : Harper) (w : World) :
    (req.Process E U harper w).2.1 = req.loadSchema harper := by
  unfold UpdtReq.Process
  simp only []
  split <;> rfl

/-- The method `ReadReq.Process` calls `Harper.Run` once, with the request after `loadSchema`. -/
theorem ReadReq_Process_calls {α : Type} (E : Env) (V : Unmarshaler α) (req : ReadReq)
    (harper : Harper) (result : α) (w : World) :
    (req.Process E V harper result w).2.2.2.calls
      = w.calls ++ [.read (req.loadSchema harper)] := by
  rw [← Run_calls E harper (.read (req.loadSchema harper)) w]
  unfold ReadReq.Process
  simp only []
  split
  · simp_all
  · split <;> simp_all

/-- After `ReadReq.Process` the caller's request is the request after `loadSchema`. -/
theorem ReadReq_Process_req {α : Type} (E : Env) (V : Unmarshaler α) (req : ReadReq)
    (harper : Harper) (result : α) (w : World) :
    (req.Process E V harper result w).2.1 = req.loadSchema harper := by
  unfold ReadReq.Process
  simp only []
  split
  · rfl
  · split <;> rfl

/-- C4: for `UpdtReq.Process` and `ReadReq.Process` alike, the envelope handed to
`Harper.Run`, and the request the caller holds afterwards, carry the session's
default schema when the request's `Schema` was empty and the request's own
`Schema` otherwise. -/
theorem Process_schema_resolution {α : Type} (E : Env) (U : Unmarshaler UpdtResult)
    (V : Unmarshaler α) (ureq : UpdtReq) (rreq : ReadReq) (harper : Harper) (result : α)
    (w : World) :
    (ureq.Process E U harper w).2.2.calls = w.calls ++
      [.updt { ureq with
        Schema := if ureq.Schema = utf8 "" then harper.Schema else ureq.Schema }] ∧
    (ureq.Process E U harper w).2.1 = { ureq with
        Schema := if ureq.Schema = utf8 "" then harper.Schema else ureq.Schema } ∧
    (rreq.Process E V harper result w).2.2.2.calls = w.calls ++
      [.read { rreq with
        Schema := if rreq.Schema = utf8 "" then harper.Schema else rreq.Schema }] ∧
    (rreq.Process E V harper result w).2.1 = { rreq with
        Schema := if rreq.Schema = utf8 "" then harper.Schema else rreq.Schema } := by
  rw [← UpdtReq_loadSchema_eq, ← ReadReq_loadSchema_eq]
  exact ⟨UpdtReq_Process_calls E U ureq harper w, UpdtReq_Process_req E U ureq harper w,
    ReadReq_Process_calls E V rreq harper result w, ReadReq_Process_req E V rreq harper result w⟩

/-- The read half of C5: when `Harper.Run` returns bytes with no error and the
decoder rejects them, `ReadReq.Process` returns the decoder's error. -/
theorem ReadReq_Process_decoding_error {α : Type} (E : Env) (Unmarshal : Unmarshaler α)
    (req : ReadReq) (harper : Harper) (result : α) (w w' : World) (response : Option Bytes)
    (e : GoError)
    (hrun : harper.Run E (.read (req.loadSchema harper)) w = (.ok (response, none), w'))
    (hdec : (Unmarshal (bytesOf response) result).2 = some e) :
    (req.Process E Unmarshal harper result w).1 = .ok (some e) := by
  simp [ReadReq.Process, hrun, hdec]

/-- C5 fails on the code for mutations: when `Harper.Run` returns bytes with no
error and the decoder rejects them (leaving no skipped hashes), `UpdtReq.Process`
drops the decoder's error and returns a nil error. -/
theorem UpdtReq_Process_drops_decoding_error (E : Env) (Unmarshal : Unmarshaler UpdtResult)
    (req : UpdtReq) (harper : Harper) (w w' : World) (response : Option Bytes) (e : GoError)
    (hrun : harper.Run E (.updt (req.loadSchema harper)) w = (.ok (response, none), w'))
    (_hdec : (Unmarshal (bytesOf response) UpdtResult.zero).2 = some e)
    (hskip : (Unmarshal (bytesOf response) UpdtResult.zero).1.SkippedHashes = []) :
    (req.Process E Unmarshal harper w).1
      = .ok ((Unmarshal (bytesOf response) UpdtResult.zero).1, none) := by
  simp [UpdtReq.Process, hrun, hskip]

/-- C5 at a response with status 200 whose body is not JSON: the mutation call
returns the zero result and a nil error. -/
theorem UpdtReq_Process_drops_decoding_error_witness :
    (sampleUpdate.Process sampleEnv sampleUnmarshalUpdt
        (sampleHarper (okClient (utf8 "<html>")) (utf8 "dev")) World.init).1
      = .ok (UpdtResult.zero, none) :=
  UpdtReq_Process_drops_decoding_error sampleEnv sampleUnmarshalUpdt sampleUpdate
    (sampleHarper (okClient (utf8 "<html>")) (utf8 "dev")) World.init _ (some (utf8 "<html>"))
    (errors.New (utf8 "invalid character")) rfl (by decide) (by decide)

/-! ## Bulk load and select -/

/-- C8 fails on the code: whatever the session, the map `CsvDataLoad` hands to
`Harper.Run` has the key "schema", and its wire form carries the member
"schema" with the session's default schema as value, the empty string when the
default is unset. -/
theorem CsvDataLoad_sends_schema_key (E : Env) (CreateCSVLine : List GoString → GoString)
    (Unmarshal : Unmarshaler bulkResponse) (harper : Harper) (table action : GoString)
    (data : List (List GoString)) (w : World) :
    (CsvDataLoad E CreateCSVLine Unmarshal harper table action data w).2.calls
      = w.calls ++ [.map (CsvDataLoad.payload harper table action
          (CsvDataLoad.csvData CreateCSVLine data))] ∧
    json.Marshal (.map (CsvDataLoad.payload harper table action
        (CsvDataLoad.csvData CreateCSVLine data)))
      = .ok (.object [
          (utf8 "action", .str action),
          (utf8 "data", .str (CsvDataLoad.csvData CreateCSVLine data)),
          (utf8 "operation", .str (utf8 "csv_data_load")),
          (utf8 "schema", .str harper.Schema),
          (utf8 "table", .str table)]) := by
  constructor
  · have c := Run_calls E harper (.map (CsvDataLoad.payload harper table action
      (CsvDataLoad.csvData CreateCSVLine data))) w
    rw [← c]
    unfold CsvDataLoad
    simp only []
    split
    · simp_all
    · split
      · simp_all
      · split <;> simp_all
  · rfl

/-- C9 as stated fails: in a session whose default schema is "dev", the command
`Select` hands to `Harper.Run` has `Schema` "dev", and its wire form has the
key "schema". -/
theorem Select_sends_session_schema :
    (Select sampleEnv sampleUnmarshalRows (sampleHarper (okClient (utf8 "[]")) (utf8 "dev"))
        (utf8 "SELECT * FROM dev.dog") [] World.init).2.2.calls
      = [.read ⟨utf8 "sql", utf8 "dev", utf8 "", [], [], [], [],
          utf8 "SELECT * FROM dev.dog"⟩] ∧
    (json.Marshal (.read ⟨utf8 "sql", utf8 "dev", utf8 "", [], [], [], [],
        utf8 "SELECT * FROM dev.dog"⟩)).map Doc.keys
      = .ok [utf8 "operation", utf8 "schema", utf8 "sql"] ∧
    utf8 "dev" ≠ utf8 "" := by
  decide

/-- C9 amended: for every session and query text, the command `Select` hands to
`Harper.Run` has operation "sql", the given query text, no table, and the
session's default schema as its schema; on the wire the key "table" is absent,
and the key "schema" is absent exactly when the session's default schema is
empty. -/
theorem Select_command {α : Type} (E : Env) (Unmarshal : Unmarshaler α) (harper : Harper)
    (sql : GoString) (result : α) (w : World) :
    (Select E Unmarshal harper sql result w).2.2.calls
      = w.calls ++ [.read ⟨utf8 "sql", harper.Schema, utf8 "", [], [], [], [], sql⟩] ∧
    json.Marshal (.read ⟨utf8 "sql", harper.Schema, utf8 "", [], [], [], [], sql⟩)
      = .ok (.object ([(utf8 "operation", .str (utf8 "sql"))]
          ++ json.omitemptyString "schema" harper.Schema
          ++ json.omitemptyString "sql" sql)) ∧
    utf8 "table" ∉ (Doc.object ([(utf8 "operation", .str (utf8 "sql"))]
          ++ json.omitemptyString "schema" harper.Schema
          ++ json.omitemptyString "sql" sql)).keys ∧
    (utf8 "schema" ∈ (Doc.object ([(utf8 "operation", .str (utf8 "sql"))]
          ++ json.omitemptyString "schema" harper.Schema
          ++ json.omitemptyString "sql" sql)).keys ↔ harper.Schema ≠ utf8 "") := by
  have hutf : utf8 "" = ([] : GoString) := rfl
  have k1 : utf8 "table" ≠ utf8 "operation" := by decide
  have k2 : utf8 "table" ≠ utf8 "schema" := by decide
  have k3 : utf8 "table" ≠ utf8 "sql" := by decide
  have k4 : utf8 "schema" ≠ utf8 "operation" := by decide
  have k5 : utf8 "schema" ≠ utf8 "sql" := by decide
  refine ⟨?_, ?_, ?_, ?_⟩
  · have h := ReadReq_Process_calls E Unmarshal
      ⟨utf8 "sql", utf8 "", utf8 "", [], [], [], [], sql⟩ harper result w
    rw [ReadReq_loadSchema_eq] at h
    simp only [if_true] at h
    rw [← h]
    rfl
  · simp [json.Marshal, json.omitemptyString, json.omitemptyStrings, hutf]
  · by_cases hs : harper.Schema = [] <;> by_cases hq : sql = [] <;>
      simp [Doc.keys, json.omitemptyString, hs, hq, k1, k2, k3]
  · by_cases hs : harper.Schema = [] <;> by_cases hq : sql = [] <;>
      simp [Doc.keys, json.omitemptyString, hs, hq, hutf, k4, k5]

end harper
